import Mathlib

set_option maxRecDepth 10000

/-
Verification of the e621 downloader core (src/main.py).

The Python source is shallowly embedded: strings are `List Char`, byte
contents are `List Nat`, the filesystem is a map from paths to optional
contents, and the HTTP transport is a response function supplied as a
parameter.  Each definition mirrors one Python function of the source.
-/

namespace E6

/-! ## Filename sanitizer (`FileDownloader._sanitize_filename`) -/

/-- The fixed set of filesystem-unsafe characters stripped by the sanitizer
(`invalid_chars = '<>:"/\\|?*'`). -/
def invalidChars : List Char := ['<', '>', ':', '"', '/', '\\', '|', '?', '*']

/-- Whitespace as recognised by Python `str.split()` with no arguments,
restricted to its ASCII members (space, tab, newline, carriage return,
vertical tab, form feed). -/
def pyIsSpace (c : Char) : Bool :=
  c == ' ' || c == '\t' || c == '\n' || c == '\r' || c == Char.ofNat 11 || c == Char.ofNat 12

/-- Python `s.split()`: split on whitespace runs, discarding empty tokens. -/
def pySplitWs (l : List Char) : List (List Char) :=
  (l.splitOnP pyIsSpace).filter (fun t => !t.isEmpty)

/-- Python `' '.join(s.split())`: collapse whitespace runs to single spaces. -/
def collapseWs (l : List Char) : List Char :=
  List.intercalate [' '] (pySplitWs l)

/-- Python `''.join(c for c in filename if c not in invalid_chars)`. -/
def stripInvalid (l : List Char) : List Char :=
  l.filter (fun c => !invalidChars.contains c)

/-- Python `sanitized.split('.')[-1]`: the final dot-separated segment. -/
def name_ext (l : List Char) : List Char :=
  (l.splitOn '.').getLastD []

/-- `FileDownloader._sanitize_filename`: strip unsafe characters, collapse
whitespace, and when the result exceeds 100 characters truncate the base
name to 95 characters keeping the final extension segment
(`f"{base_name[:95]}.{extension}"`), or truncate to 100 characters when
there is no dot. -/
def sanitize_filename (filename : List Char) : List Char :=
  let sanitized := collapseWs (stripInvalid filename)
  if 100 < sanitized.length then
    if 1 < (sanitized.splitOn '.').length then
      (List.intercalate ['.'] (sanitized.splitOn '.').dropLast).take 95 ++ '.' :: name_ext sanitized
    else
      sanitized.take 100
  else
    sanitized

/-! ## Progress tracker (`DownloadTracker`) -/

/-- `DownloadTracker`: counts of downloaded, total and failed files. -/
structure DownloadTracker where
  downloaded_files : Nat
  total_files : Nat
  failed_downloads : Nat
deriving DecidableEq, Repr

/-- `DownloadTracker.add_files`: `self.total_files += count`. -/
def DownloadTracker.add_files (t : DownloadTracker) (count : Nat) : DownloadTracker :=
  { t with total_files := t.total_files + count }

/-- `DownloadTracker.register_download`: increment the downloaded counter on
success, the failed counter otherwise. -/
def DownloadTracker.register_download (t : DownloadTracker) (success : Bool) : DownloadTracker :=
  if success then { t with downloaded_files := t.downloaded_files + 1 }
  else { t with failed_downloads := t.failed_downloads + 1 }

/-! ## API client (`APIClient`) -/

/-- Outcome of one HTTP attempt inside `APIClient._make_request`: a 200
response carrying a JSON body (whose optional `posts` field we model), a
401, any other clean status, or an `aiohttp.ClientError`. -/
inductive ApiResp where
  | ok (posts : Option (List Nat))
  | unauthorized
  | otherStatus
  | connError
deriving DecidableEq

/-- Whether an attempt outcome is a 200 response. -/
def ApiResp.isOk : ApiResp → Bool
  | .ok _ => true
  | _ => false

/-- `self.retry_count = 3`. -/
def retry_count : Nat := 3

/-- The loop body of `APIClient._make_request`: attempt `i` with `fuel`
attempts remaining; returns the parsed JSON body (if any) together with the
number of HTTP requests issued.  A 200 returns the body, a 401 returns
`None` immediately, any other status and any `ClientError` fall through to
the next attempt; exhausting attempts returns `None`. -/
def make_request_go (resp : Nat → ApiResp) (i : Nat) : Nat → Option (Option (List Nat)) × Nat
  | 0 => (none, 0)
  | fuel + 1 =>
    match resp i with
    | .ok b => (some b, 1)
    | .unauthorized => (none, 1)
    | .otherStatus =>
      let r := make_request_go resp (i + 1) fuel
      (r.1, r.2 + 1)
    | .connError =>
      let r := make_request_go resp (i + 1) fuel
      (r.1, r.2 + 1)

/-- `APIClient._make_request`, given the per-attempt transport outcomes. -/
def make_request (resp : Nat → ApiResp) : Option (Option (List Nat)) × Nat :=
  make_request_go resp 0 retry_count

/-- `APIClient.verify_login`: `result is not None`. -/
def verify_login (resp : Nat → ApiResp) : Bool :=
  (make_request resp).1.isSome

/-- A search request as issued by the client: the query parameters of the
single `GET posts.json` call.  `APIClient.get_posts` sends `tags` and
`limit` and no `page` parameter. -/
structure ApiRequest where
  tags : List Char
  limit : Nat
  page : Option Nat
deriving DecidableEq

/-- `APIClient.get_posts`: issue one `_make_request('posts.json',
{'tags': tags, 'limit': limit})` and return `result.get('posts', [])`
(empty when the request yielded no result).  Also returns the list of
requests issued, for stating frame properties. -/
def get_posts (server : ApiRequest → ApiResp) (tags : List Char) (limit : Nat) :
    List Nat × List ApiRequest :=
  let req : ApiRequest := ⟨tags, limit, none⟩
  let r := make_request (fun _ => server req)
  (match r.1 with
   | none => []
   | some posts => posts.getD [], List.replicate r.2 req)

/-- A paginated server holding `pages p` as the items of page `p`; it
answers a request by serving the requested page, defaulting to page 1 when
the request carries no `page` parameter. -/
def pagedServer (pages : Nat → List Nat) : ApiRequest → ApiResp :=
  fun req => .ok (some (pages (req.page.getD 1)))

/-! ## File downloader (`FileDownloader`) -/

/-- `DownloadFile` dataclass: url, filename, post id, artist. -/
structure DownloadFile where
  url : List Char
  filename : List Char
  post_id : List Char
  artist : List Char
deriving DecidableEq

/-- One `GET` issued by `FileDownloader.download_file`: the url, the
optional `Range: bytes=<offset>-` header, and (as a ghost observation for
stating properties) the size the temporary file had when the attempt
began. -/
structure DLReq where
  url : List Char
  range : Option Nat
  tempSize : Nat
deriving DecidableEq

/-- Outcome of one `GET` attempt of the file downloader: an
`aiohttp.ClientError` at request time, or a response with a status and a
streamed body (a list of chunks); `interrupted` means the connection died
(raising `ClientError`) after those chunks were delivered and written. -/
inductive DLResp where
  | connError
  | resp (status : Nat) (chunks : List (List Nat)) (interrupted : Bool)
deriving DecidableEq

/-- The filesystem: a map from paths to optional file contents. -/
def FS := List Char → Option (List Nat)

/-- Write (or delete, with `none`) one path of the filesystem. -/
def FS.set (fs : FS) (p : List Char) (v : Option (List Nat)) : FS :=
  fun q => if q = p then v else fs q

/-- The retry loop of `FileDownloader.download_file` (lines 259-287):
attempt `i` with `fuel` attempts remaining.  `resume` and `dsize` were
computed once, before the loop, and are not re-read.  Each attempt sends a
`Range` header iff `resume_download and downloaded_size > 0`; a response is
accepted iff its status is 200, or 206 while resuming; the body is
appended to the temporary file when resuming and written fresh otherwise;
an uninterrupted accepted body renames the temporary file onto the final
path and returns `True`; everything else falls through to the next
attempt, and exhausting attempts returns `False`. -/
def download_go (server : Nat → DLResp) (url finalP tempP : List Char)
    (resume : Bool) (dsize : Nat) :
    Nat → Nat → FS → List DLReq → Bool × FS × List DLReq
  | _, 0, fs, log => (false, fs, log)
  | i, fuel + 1, fs, log =>
    match server i with
    | .connError =>
      download_go server url finalP tempP resume dsize (i + 1) fuel fs
        (log ++ [⟨url, if resume ∧ 0 < dsize then some dsize else none,
          ((fs tempP).getD []).length⟩])
    | .resp st chunks intr =>
      if st = 200 ∨ (resume ∧ st = 206) then
        if intr then
          download_go server url finalP tempP resume dsize (i + 1) fuel
            (fs.set tempP (some ((if resume then (fs tempP).getD [] else []) ++ chunks.flatten)))
            (log ++ [⟨url, if resume ∧ 0 < dsize then some dsize else none,
              ((fs tempP).getD []).length⟩])
        else
          (true,
            ((fs.set tempP
                (some ((if resume then (fs tempP).getD [] else []) ++ chunks.flatten))).set
              tempP none).set finalP
              (some ((if resume then (fs tempP).getD [] else []) ++ chunks.flatten)),
            log ++ [⟨url, if resume ∧ 0 < dsize then some dsize else none,
              ((fs tempP).getD []).length⟩])
      else
        download_go server url finalP tempP resume dsize (i + 1) fuel fs
          (log ++ [⟨url, if resume ∧ 0 < dsize then some dsize else none,
            ((fs tempP).getD []).length⟩])

/-- `filepath = Path(self.save_directory) / sanitized_filename`. -/
def final_path (save_directory : List Char) (f : DownloadFile) : List Char :=
  save_directory ++ '/' :: sanitize_filename f.filename

/-- `temp_filepath = Path(f"{filepath}.part")`. -/
def temp_path (save_directory : List Char) (f : DownloadFile) : List Char :=
  final_path save_directory f ++ ['.', 'p', 'a', 'r', 't']

/-- `FileDownloader.download_file`: succeed immediately when the final path
exists; otherwise read the temporary file's size as the resume offset
(once), then run the retry loop.  Returns the reported success flag, the
resulting filesystem, and the list of requests issued. -/
def download_file (server : Nat → DLResp) (save_directory : List Char)
    (f : DownloadFile) (fs : FS) : Bool × FS × List DLReq :=
  if (fs (final_path save_directory f)).isSome then (true, fs, [])
  else
    match fs (temp_path save_directory f) with
    | some c =>
      download_go server f.url (final_path save_directory f) (temp_path save_directory f)
        true c.length 0 retry_count fs []
    | none =>
      download_go server f.url (final_path save_directory f) (temp_path save_directory f)
        false 0 0 retry_count fs []

/-! ## Orchestrator download loop (`DownloaderThread.download_process`) -/

/-- The sequential task loop (lines 410-430): before each task the
cancellation flag is checked (`if not self.running: break`); otherwise the
task's download outcome is recorded in the tracker.  `stopped i` tells
whether `stop()` has been observed by the time the loop head for task `i`
runs; `results` are the per-task `download_file` outcomes.  Returns the
final tracker and the list of `(index, outcome)` records of the downloads
that were actually begun. -/
def download_loop (stopped : Nat → Bool) :
    List Bool → Nat → DownloadTracker → DownloadTracker × List (Nat × Bool)
  | [], _, tr => (tr, [])
  | r :: rest, i, tr =>
    if stopped i then (tr, [])
    else
      let out := download_loop stopped rest (i + 1) (tr.register_download r)
      (out.1, (i, r) :: out.2)

/-- The tracker states after the task list is built: `add_files` is called
once with the task count `n`, then one `register_download` per processed
task (`List.scanl` keeps every intermediate state). -/
def post_build_states (n : Nat) (results : List Bool) : List DownloadTracker :=
  List.scanl (fun t r => t.register_download r)
    ((⟨0, 0, 0⟩ : DownloadTracker).add_files n) results

/-- Every tracker state of a run: the fresh tracker of
`DownloaderThread.__init__`, then the states after `add_files n` and each
`register_download`. -/
def tracker_states (n : Nat) (results : List Bool) : List DownloadTracker :=
  (⟨0, 0, 0⟩ : DownloadTracker) :: post_build_states n results

/-! ## Concrete fixtures used by counterexamples and witnesses -/

/-- A paginated result set: page 1 holds exactly two items, page 2 holds
one item (fewer than the page size 2), later pages are empty. -/
def exPages : Nat → List Nat := fun p => if p = 1 then [10, 20] else if p = 2 then [30] else []

/-- A filename whose extension segment is 60 characters long. -/
def ex4bad : List Char := List.replicate 50 'a' ++ '.' :: List.replicate 60 'b'

/-- A 124-character filename with a conventional 3-character extension. -/
def ex4good : List Char := List.replicate 120 'a' ++ ['.', 'p', 'n', 'g']

/-- A 101-character dotless filename whose 100-character truncation ends in
a space. -/
def ex10 : List Char := List.replicate 99 'a' ++ [' ', 'b']

/-- A concrete download task. -/
def exF : DownloadFile := ⟨['u'], ['a', '.', 'p', 'n', 'g'], [], []⟩

/-- A filesystem holding a 1-byte partial file for `exF` under save
directory `d`, and nothing else. -/
def exFS3 : FS := fun p => if p = temp_path ['d'] exF then some [1] else none

/-- A server delivering the remaining bytes `[2, 3]` of the 3-byte remote
resource `[1, 2, 3]` with status 206. -/
def exServer3 : Nat → DLResp := fun _ => .resp 206 [[2, 3]] false

/-- A filesystem holding a 1-byte partial file `[9]` for `exF`. -/
def exFS5 : FS := fun p => if p = temp_path ['d'] exF then some [9] else none

/-- A server whose first response streams one byte and then dies, and whose
second response succeeds. -/
def exServer5 : Nat → DLResp := fun i => if i = 0 then .resp 206 [[5]] true else .resp 206 [[6]] false

/-- A filesystem on which `exF`'s final file is already present. -/
def exFS7 : FS := fun p => if p = final_path ['d'] exF then some [1, 2] else none

/-- A cancellation flag that is observed set from task index 1 on. -/
def exStopped : Nat → Bool := fun i => decide (1 ≤ i)

/-! ## Auxiliary list lemmas -/

theorem intercalate_cons_cons {α : Type} (s t u : List α) (r : List (List α)) :
    List.intercalate s (t :: u :: r) = t ++ s ++ List.intercalate s (u :: r) := by
  simp [List.intercalate, List.intersperse]

theorem intercalate_single {α : Type} (s t : List α) : List.intercalate s [t] = t := by
  simp [List.intercalate]

/-- Every element of a `splitOnP` token is an element of the split list. -/
theorem mem_splitOnP_sublist {α : Type} (p : α → Bool) :
    ∀ (l t : List α), t ∈ l.splitOnP p → ∀ c ∈ t, c ∈ l := by
  intro l
  induction l with
  | nil =>
    intro t ht c hc
    simp only [List.splitOnP_nil, List.mem_singleton] at ht
    subst ht
    simp at hc
  | cons a l ih =>
    intro t ht c hc
    rw [List.splitOnP_cons] at ht
    by_cases hpa : p a
    · rw [if_pos hpa] at ht
      rcases List.mem_cons.mp ht with h | h
      · subst h; simp at hc
      · exact List.mem_cons_of_mem a (ih t h c hc)
    · rw [if_neg hpa] at ht
      cases hsp : l.splitOnP p with
      | nil => exact absurd hsp (List.splitOnP_ne_nil p l)
      | cons h0 rest =>
        rw [hsp, List.modifyHead] at ht
        rcases List.mem_cons.mp ht with h | h
        · subst h
          rcases List.mem_cons.mp hc with h | h
          · subst h; exact List.mem_cons_self _ _
          · have hh0 : h0 ∈ l.splitOnP p := by rw [hsp]; exact List.mem_cons_self _ _
            exact List.mem_cons_of_mem a (ih h0 hh0 c h)
        · have hht : t ∈ l.splitOnP p := by rw [hsp]; exact List.mem_cons_of_mem _ h
          exact List.mem_cons_of_mem a (ih t hht c hc)

/-- `splitOnP` tokens contain no separators. -/
theorem splitOnP_sep_free {α : Type} (p : α → Bool) :
    ∀ (l t : List α), t ∈ l.splitOnP p → ∀ c ∈ t, p c = false := by
  intro l
  induction l with
  | nil =>
    intro t ht c hc
    simp only [List.splitOnP_nil, List.mem_singleton] at ht
    subst ht
    simp at hc
  | cons a l ih =>
    intro t ht c hc
    rw [List.splitOnP_cons] at ht
    by_cases hpa : p a
    · rw [if_pos hpa] at ht
      rcases List.mem_cons.mp ht with h | h
      · subst h; simp at hc
      · exact ih t h c hc
    · rw [if_neg hpa] at ht
      cases hsp : l.splitOnP p with
      | nil => exact absurd hsp (List.splitOnP_ne_nil p l)
      | cons h0 rest =>
        rw [hsp, List.modifyHead] at ht
        rcases List.mem_cons.mp ht with h | h
        · subst h
          rcases List.mem_cons.mp hc with h | h
          · subst h; exact Bool.of_not_eq_true hpa
          · have hh0 : h0 ∈ l.splitOnP p := by rw [hsp]; exact List.mem_cons_self _ _
            exact ih h0 hh0 c h
        · have hht : t ∈ l.splitOnP p := by rw [hsp]; exact List.mem_cons_of_mem _ h
          exact ih t hht c hc

/-- Membership in a single-separator `intercalate`. -/
theorem mem_intercalate_single {α : Type} (x c : α) :
    ∀ L : List (List α), c ∈ List.intercalate [x] L → c = x ∨ ∃ t ∈ L, c ∈ t := by
  intro L
  induction L with
  | nil => intro h; simp [List.intercalate] at h
  | cons t L ih =>
    cases L with
    | nil =>
      intro h
      rw [intercalate_single] at h
      exact Or.inr ⟨t, List.mem_cons_self _ _, h⟩
    | cons u r =>
      intro h
      rw [intercalate_cons_cons] at h
      rcases List.mem_append.mp h with h | h
      · rcases List.mem_append.mp h with h | h
        · exact Or.inr ⟨t, List.mem_cons_self _ _, h⟩
        · exact Or.inl (List.mem_singleton.mp h)
      · rcases ih h with h | ⟨v, hv, hc⟩
        · exact Or.inl h
        · exact Or.inr ⟨v, List.mem_cons_of_mem _ hv, hc⟩

/-- `getLastD` of a nonempty list is a member. -/
theorem getLastD_mem {α : Type} : ∀ (l : List α), l ≠ [] → ∀ d : α, l.getLastD d ∈ l := by
  intro l
  induction l with
  | nil => intro h; exact absurd rfl h
  | cons a l ih =>
    intro _ d
    cases hl : l with
    | nil => simp [List.getLastD]
    | cons b m =>
      rw [List.getLastD_cons]
      subst hl
      exact List.mem_cons_of_mem a (ih (by simp) a)

/-- A list containing a separator splits into at least two parts. -/
theorem two_le_splitOnP_length {α : Type} (p : α → Bool) :
    ∀ l : List α, (∃ e ∈ l, p e = true) → 2 ≤ (l.splitOnP p).length := by
  intro l
  induction l with
  | nil => rintro ⟨e, he, _⟩; simp at he
  | cons a l ih =>
    rintro ⟨e, he, hpe⟩
    rw [List.splitOnP_cons]
    by_cases hpa : p a
    · rw [if_pos hpa]
      have := List.length_pos.mpr (List.splitOnP_ne_nil p l)
      simp only [List.length_cons]
      omega
    · rw [if_neg hpa, List.length_modifyHead]
      rcases List.mem_cons.mp he with h | h
      · subst h; exact absurd hpe (by simpa using hpa)
      · exact ih ⟨e, h, hpe⟩

/-! ## Sanitizer lemmas -/

/-- Characters of the whitespace-collapsed string come from the original
string, except for the single separating spaces. -/
theorem mem_collapseWs {l : List Char} {c : Char} (hc : c ∈ collapseWs l) :
    c = ' ' ∨ c ∈ l := by
  rcases mem_intercalate_single ' ' c (pySplitWs l) hc with h | ⟨t, ht, hct⟩
  · exact Or.inl h
  · exact Or.inr (mem_splitOnP_sublist pyIsSpace l t (List.mem_of_mem_filter ht) c hct)

/-- Tokens of `pySplitWs` are nonempty. -/
theorem pySplitWs_ne_nil {l t : List Char} (ht : t ∈ pySplitWs l) : t ≠ [] := by
  have := List.of_mem_filter ht
  simpa using this

/-- Tokens of `pySplitWs` contain no whitespace. -/
theorem pySplitWs_space_free {l t : List Char} (ht : t ∈ pySplitWs l) :
    ∀ c ∈ t, pyIsSpace c = false :=
  splitOnP_sep_free pyIsSpace l t (List.mem_of_mem_filter ht)

/-- Characters of the stripped string satisfy the filter predicate. -/
theorem mem_stripInvalid {l : List Char} {c : Char} (hc : c ∈ stripInvalid l) :
    invalidChars.contains c = false := by
  have := List.of_mem_filter hc
  simpa using this

/-- The final dot segment of a string of the form `ys ++ '.' :: ext`, where
`ext` contains no dot, is `ext`. -/
theorem name_ext_append {ext : List Char} (hext : ∀ c ∈ ext, (c == '.') = false) :
    ∀ ys : List Char, name_ext (ys ++ '.' :: ext) = ext := by
  intro ys
  induction ys with
  | nil =>
    show ((('.' :: ext).splitOn '.').getLastD []) = ext
    rw [show ('.' :: ext).splitOn '.' = ('.' :: ext).splitOnP (· == '.') from rfl,
      List.splitOnP_cons, if_pos (by simp),
      List.splitOnP_eq_single _ _ (by intro x hx; simp [hext x hx])]
    rfl
  | cons a ys ih =>
    show (((a :: (ys ++ '.' :: ext)).splitOn '.').getLastD []) = ext
    rw [show (a :: (ys ++ '.' :: ext)).splitOn '.' =
        (a :: (ys ++ '.' :: ext)).splitOnP (· == '.') from rfl, List.splitOnP_cons]
    by_cases hpa : (a == '.') = true
    · rw [if_pos hpa, List.getLastD_cons]
      have := ih
      simp only [name_ext, List.splitOn] at this
      cases hsp : (ys ++ '.' :: ext).splitOnP (· == '.') with
      | nil => exact absurd hsp (List.splitOnP_ne_nil _ _)
      | cons h0 rest =>
        rw [hsp] at this
        rw [List.getLastD_cons] at this ⊢
        exact this
    · rw [if_neg hpa]
      have h2 : 2 ≤ ((ys ++ '.' :: ext).splitOnP (· == '.')).length := by
        refine two_le_splitOnP_length _ _ ⟨'.', ?_, by simp⟩
        exact List.mem_append_right ys (List.mem_cons_self _ _)
      have := ih
      simp only [name_ext, List.splitOn] at this
      cases hsp : (ys ++ '.' :: ext).splitOnP (· == '.') with
      | nil => exact absurd hsp (List.splitOnP_ne_nil _ _)
      | cons h0 rest =>
        cases rest with
        | nil => rw [hsp] at h2; simp at h2
        | cons h1 rest2 =>
          rw [hsp] at this
          rw [List.modifyHead, List.getLastD_cons, List.getLastD_cons]
          rw [List.getLastD_cons, List.getLastD_cons] at this
          exact this

/-- The branch structure of `sanitize_filename`, written out. -/
theorem sanitize_filename_eq (s : List Char) :
    sanitize_filename s =
      if 100 < (collapseWs (stripInvalid s)).length then
        if 1 < ((collapseWs (stripInvalid s)).splitOn '.').length then
          (List.intercalate ['.'] ((collapseWs (stripInvalid s)).splitOn '.').dropLast).take 95
            ++ '.' :: name_ext (collapseWs (stripInvalid s))
        else (collapseWs (stripInvalid s)).take 100
      else collapseWs (stripInvalid s) := rfl

/-- Splitting a collapsed string into whitespace tokens recovers the tokens
it was assembled from. -/
theorem pySplitWs_intercalate :
    ∀ T : List (List Char), (∀ t ∈ T, t ≠ []) → (∀ t ∈ T, ∀ c ∈ t, pyIsSpace c = false) →
    pySplitWs (List.intercalate [' '] T) = T := by
  intro T
  induction T with
  | nil => intro _ _; simp [pySplitWs, List.intercalate]
  | cons t T ih =>
    intro hne hfree
    cases T with
    | nil =>
      rw [intercalate_single]
      unfold pySplitWs
      rw [List.splitOnP_eq_single _ _ (by
        intro x hx
        simp [hfree t (List.mem_singleton.mpr rfl) x hx])]
      have ht : t ≠ [] := hne t (List.mem_singleton.mpr rfl)
      cases t with
      | nil => exact absurd rfl ht
      | cons a t2 => simp [List.filter]
    | cons u T2 =>
      rw [intercalate_cons_cons, List.append_assoc]
      unfold pySplitWs
      rw [show ([' '] ++ List.intercalate [' '] (u :: T2)) = ' ' :: List.intercalate [' '] (u :: T2)
          from rfl,
        List.splitOnP_first _ _
          (by intro x hx; simp [hfree t (List.mem_cons_self _ _) x hx]) ' ' (by decide),
        List.filter_cons]
      have ht : t ≠ [] := hne t (List.mem_cons_self _ _)
      have hne2 : ∀ v ∈ u :: T2, v ≠ [] := fun v hv => hne v (List.mem_cons_of_mem _ hv)
      have hfree2 : ∀ v ∈ u :: T2, ∀ c ∈ v, pyIsSpace c = false :=
        fun v hv => hfree v (List.mem_cons_of_mem _ hv)
      have := ih hne2 hfree2
      unfold pySplitWs at this
      rw [this]
      cases t with
      | nil => exact absurd rfl ht
      | cons a t2 => simp

/-- C4 support: the whitespace-collapse pass is a fixpoint on its own
output (up to the stripping pass, which is also a fixpoint). -/
theorem collapseWs_fixpoint (l : List Char) : collapseWs (collapseWs l) = collapseWs l := by
  unfold collapseWs
  rw [pySplitWs_intercalate (pySplitWs l)
    (fun t ht => pySplitWs_ne_nil ht) (fun t ht => pySplitWs_space_free ht)]

/-- Stripping is a fixpoint on any collapsed stripped string. -/
theorem stripInvalid_collapse_fixpoint (s : List Char) :
    stripInvalid (collapseWs (stripInvalid s)) = collapseWs (stripInvalid s) := by
  apply List.filter_eq_self.mpr
  intro c hc
  rcases mem_collapseWs hc with h | h
  · subst h; decide
  · simpa using mem_stripInvalid h

/-! ## Claim C4 -/

/-- C4 counterexample: on the input of 50 `a`s, a dot, and 60 `b`s, the
sanitizer's output is 111 characters long, violating the claimed
100-character ceiling (the truncation `base_name[:95]` keeps the whole
extension segment, which here is 60 characters). -/
theorem C4_length_cex : ¬ ((sanitize_filename ex4bad).length ≤ 100) := by decide

/-- C4 (amended): the sanitizer's output contains none of the reserved
unsafe characters; the output length is at most 100 whenever the final
extension segment of the stripped-and-collapsed name is at most 4
characters; and when that name exceeds the ceiling and contains a dot, its
final extension segment is preserved in the output. -/
theorem C4_sanitizer_amended (s : List Char) :
    (∀ c ∈ sanitize_filename s, invalidChars.contains c = false)
    ∧ ((name_ext (collapseWs (stripInvalid s))).length ≤ 4 → (sanitize_filename s).length ≤ 100)
    ∧ (100 < (collapseWs (stripInvalid s)).length →
        1 < ((collapseWs (stripInvalid s)).splitOn '.').length →
        name_ext (sanitize_filename s) = name_ext (collapseWs (stripInvalid s))) := by
  have hbase : ∀ c ∈ collapseWs (stripInvalid s), invalidChars.contains c = false := by
    intro c hc
    rcases mem_collapseWs hc with h | h
    · subst h; decide
    · exact mem_stripInvalid h
  have hparts_ne : (collapseWs (stripInvalid s)).splitOn '.' ≠ [] :=
    List.splitOnP_ne_nil _ _
  have hext_mem : name_ext (collapseWs (stripInvalid s))
      ∈ (collapseWs (stripInvalid s)).splitOn '.' :=
    getLastD_mem _ hparts_ne []
  have hpart_sub : ∀ t ∈ (collapseWs (stripInvalid s)).splitOn '.',
      ∀ c ∈ t, c ∈ collapseWs (stripInvalid s) := fun t ht =>
    mem_splitOnP_sublist _ (collapseWs (stripInvalid s)) t ht
  have hext_free : ∀ c ∈ name_ext (collapseWs (stripInvalid s)), (c == '.') = false :=
    splitOnP_sep_free _ (collapseWs (stripInvalid s)) _ hext_mem
  refine ⟨?_, ?_, ?_⟩
  · intro c hc
    rw [sanitize_filename_eq] at hc
    split_ifs at hc with h1 h2
    · rcases List.mem_append.mp hc with h | h
      · rcases mem_intercalate_single '.' c _ (List.take_subset _ _ h) with h | ⟨t, ht, hct⟩
        · subst h; decide
        · exact hbase c (hpart_sub t (List.dropLast_subset _ ht) c hct)
      · rcases List.mem_cons.mp h with h | h
        · subst h; decide
        · exact hbase c (hpart_sub _ hext_mem c h)
    · exact hbase c (List.take_subset _ _ hc)
    · exact hbase c hc
  · intro hle
    rw [sanitize_filename_eq]
    split_ifs with h1 h2
    · simp only [List.length_append, List.length_take, List.length_cons]
      omega
    · simp only [List.length_take]
      omega
    · omega
  · intro h1 h2
    rw [sanitize_filename_eq, if_pos h1, if_pos h2]
    exact name_ext_append hext_free _

/-- C4 witness: on a 124-character name with extension `png`, the output
keeps the extension and stays within the ceiling. -/
theorem C4_sanitizer_amended_witness :
    (sanitize_filename ex4good).length ≤ 100
    ∧ name_ext (sanitize_filename ex4good) = name_ext (collapseWs (stripInvalid ex4good)) := by
  have h := C4_sanitizer_amended ex4good
  exact ⟨h.2.1 (by decide), h.2.2 (by decide) (by decide)⟩

/-! ## Claim C10 -/

/-- C10 counterexample: on the 101-character input of 99 `a`s, a space and
a `b`, the sanitizer truncates to 100 characters ending in a space; a
second application collapses that trailing space away, so the sanitizer is
not idempotent. -/
theorem C10_idempotent_cex :
    sanitize_filename (sanitize_filename ex10) ≠ sanitize_filename ex10 := by decide

/-- C10 (amended): the sanitizer is idempotent on every input that does not
trigger the length truncation, i.e. whenever the stripped-and-collapsed
name is within the 100-character ceiling. -/
theorem C10_idempotent_amended (s : List Char)
    (h : (collapseWs (stripInvalid s)).length ≤ 100) :
    sanitize_filename (sanitize_filename s) = sanitize_filename s := by
  have h1 : sanitize_filename s = collapseWs (stripInvalid s) := by
    rw [sanitize_filename_eq, if_neg (by omega)]
  rw [h1, sanitize_filename_eq, stripInvalid_collapse_fixpoint, collapseWs_fixpoint,
    if_neg (by omega)]

/-- C10 witness: the amended idempotence applied to a short concrete
filename. -/
theorem C10_idempotent_amended_witness :
    (collapseWs (stripInvalid ['a', ' ', 'b', '.', 'p', 'n', 'g'])).length ≤ 100
    ∧ sanitize_filename (sanitize_filename ['a', ' ', 'b', '.', 'p', 'n', 'g'])
        = sanitize_filename ['a', ' ', 'b', '.', 'p', 'n', 'g'] :=
  ⟨by decide, C10_idempotent_amended _ (by decide)⟩

/-! ## Claim C8 -/

/-- `register_download` never changes the total count. -/
theorem register_download_total (t : DownloadTracker) (r : Bool) :
    (t.register_download r).total_files = t.total_files := by
  unfold DownloadTracker.register_download
  split <;> rfl

/-- All states reached by a run of `register_download`s keep the initial
total count. -/
theorem scanl_register_total :
    ∀ (results : List Bool) (t : DownloadTracker),
      ∀ s ∈ List.scanl (fun t r => t.register_download r) t results,
        s.total_files = t.total_files := by
  intro results
  induction results with
  | nil => intro t s hs; rw [List.scanl_nil] at hs; rw [List.mem_singleton.mp hs]
  | cons r rest ih =>
    intro t s hs
    rw [List.scanl_cons] at hs
    rcases List.mem_append.mp hs with h | h
    · rw [List.mem_singleton.mp h]
    · rw [ih (t.register_download r) s h, register_download_total]

/-- All states reached by a run of `register_download`s satisfy the count
invariant, provided enough slack is available at the start. -/
theorem scanl_register_inv :
    ∀ (results : List Bool) (t : DownloadTracker),
      t.downloaded_files + t.failed_downloads + results.length ≤ t.total_files →
      ∀ s ∈ List.scanl (fun t r => t.register_download r) t results,
        s.downloaded_files + s.failed_downloads ≤ s.total_files := by
  intro results
  induction results with
  | nil =>
    intro t ht s hs
    rw [List.scanl_nil] at hs
    rw [List.mem_singleton.mp hs]
    simp only [List.length_nil] at ht
    omega
  | cons r rest ih =>
    intro t ht s hs
    rw [List.scanl_cons] at hs
    rcases List.mem_append.mp hs with h | h
    · rw [List.mem_singleton.mp h]
      simp only [List.length_cons] at ht
      omega
    · refine ih (t.register_download r) ?_ s h
      simp only [List.length_cons] at ht
      unfold DownloadTracker.register_download
      split <;> simp <;> omega

/-- C8: in every state of a run reachable by the orchestrator's tracker
operations (`add_files n` once when the task list is built, then one
`register_download` per processed task, of which there are at most `n`),
`downloaded + failed` never exceeds `total`, and after the build every
state keeps `total = n`. -/
theorem C8_tracker_invariant (n : Nat) (results : List Bool) (hlen : results.length ≤ n) :
    (∀ t ∈ tracker_states n results, t.downloaded_files + t.failed_downloads ≤ t.total_files)
    ∧ (∀ t ∈ post_build_states n results, t.total_files = n) := by
  constructor
  · intro t ht
    rcases List.mem_cons.mp ht with h | h
    · rw [h]
      decide
    · refine scanl_register_inv results _ ?_ t h
      simp only [DownloadTracker.add_files]
      omega
  · intro t ht
    rw [scanl_register_total results _ t ht]
    simp [DownloadTracker.add_files]

/-- C8 witness: a run with two tasks, one success and one failure. -/
theorem C8_tracker_invariant_witness :
    ([true, false] : List Bool).length ≤ 2
    ∧ (∀ t ∈ tracker_states 2 [true, false],
        t.downloaded_files + t.failed_downloads ≤ t.total_files)
    ∧ (∀ t ∈ post_build_states 2 [true, false], t.total_files = 2) := by
  have h := C8_tracker_invariant 2 [true, false] (by decide)
  exact ⟨by decide, h.1, h.2⟩

/-! ## Claim C6 -/

/-- The task loop records an outcome only for tasks begun while the
cancellation flag was still unset, and the final tracker is exactly the
fold of the recorded outcomes over the starting tracker. -/
theorem download_loop_spec (stopped : Nat → Bool) :
    ∀ (results : List Bool) (i : Nat) (tr : DownloadTracker),
      (∀ p ∈ (download_loop stopped results i tr).2, stopped p.1 = false)
      ∧ (download_loop stopped results i tr).1 =
          (download_loop stopped results i tr).2.foldl
            (fun t p => t.register_download p.2) tr := by
  intro results
  induction results with
  | nil => intro i tr; simp [download_loop]
  | cons r rest ih =>
    intro i tr
    by_cases hs : stopped i
    · simp [download_loop, hs]
    · have h := ih (i + 1) (tr.register_download r)
      simp only [download_loop, if_neg hs]
      constructor
      · intro p hp
        rcases List.mem_cons.mp hp with h2 | h2
        · rw [h2]
          exact Bool.of_not_eq_true hs
        · exact h.1 p h2
      · rw [List.foldl_cons]
        exact h.2

/-- C6: with a cancellation flag that transitions once from unset to set,
no download is begun at or after any point where the flag is set, and every
outcome recorded before cancellation is preserved in the final tracker
(the final tracker is the fold of exactly the recorded outcomes). -/
theorem C6_cancellation (stopped : Nat → Bool) (results : List Bool) (tr0 : DownloadTracker)
    (_hmono : ∀ i j, i ≤ j → stopped i = true → stopped j = true) :
    (∀ p ∈ (download_loop stopped results 0 tr0).2, stopped p.1 = false)
    ∧ (download_loop stopped results 0 tr0).1 =
        (download_loop stopped results 0 tr0).2.foldl
          (fun t p => t.register_download p.2) tr0 :=
  download_loop_spec stopped results 0 tr0

/-- C6 witness: three tasks with the flag set from index 1 on; only task 0
is downloaded and its outcome is kept. -/
theorem C6_cancellation_witness :
    (∀ p ∈ (download_loop exStopped [true, true, false] 0 ⟨0, 0, 0⟩).2, exStopped p.1 = false)
    ∧ (download_loop exStopped [true, true, false] 0 ⟨0, 0, 0⟩).1 =
        (download_loop exStopped [true, true, false] 0 ⟨0, 0, 0⟩).2.foldl
          (fun t p => t.register_download p.2) ⟨0, 0, 0⟩ :=
  C6_cancellation exStopped [true, true, false] ⟨0, 0, 0⟩
    (fun i j hij hi => by
      simp only [exStopped, decide_eq_true_eq] at hi ⊢
      omega)

/-! ## Claim C9 -/

/-- A request loop that yields a result saw a 200 response on some attempt
within its fuel. -/
theorem make_request_go_isOk (resp : Nat → ApiResp) :
    ∀ (fuel i : Nat), (make_request_go resp i fuel).1.isSome = true →
      ∃ j, i ≤ j ∧ j < i + fuel ∧ (resp j).isOk = true := by
  intro fuel
  induction fuel with
  | zero => intro i h; simp [make_request_go] at h
  | succ fuel ih =>
    intro i h
    rw [make_request_go] at h
    cases hr : resp i with
    | ok b => exact ⟨i, Nat.le_refl i, by omega, by rw [hr]; rfl⟩
    | unauthorized => rw [hr] at h; simp at h
    | otherStatus =>
      rw [hr] at h
      obtain ⟨j, hij, hj, hok⟩ := ih (i + 1) h
      exact ⟨j, by omega, by omega, hok⟩
    | connError =>
      rw [hr] at h
      obtain ⟨j, hij, hj, hok⟩ := ih (i + 1) h
      exact ⟨j, by omega, by omega, hok⟩

/-- C9: `verify_login` returns true only when some attempt within the retry
budget received a 200 response, and a 401 on the first attempt makes it
return false after exactly that one request. -/
theorem C9_verify_login (resp : Nat → ApiResp) :
    (verify_login resp = true → ∃ i, i < retry_count ∧ (resp i).isOk = true)
    ∧ (resp 0 = .unauthorized → verify_login resp = false ∧ (make_request resp).2 = 1) := by
  constructor
  · intro h
    obtain ⟨j, h0, hj, hok⟩ := make_request_go_isOk resp retry_count 0 h
    exact ⟨j, by omega, hok⟩
  · intro h
    unfold verify_login make_request retry_count make_request_go
    rw [h]
    exact ⟨rfl, rfl⟩

/-- C9 witness: a server always answering 200 makes `verify_login`
succeed; a server answering 401 makes it fail after one request. -/
theorem C9_verify_login_witness :
    (∃ i, i < retry_count ∧ ((fun _ => ApiResp.ok none) i).isOk = true)
    ∧ (verify_login (fun _ => ApiResp.unauthorized) = false
        ∧ (make_request (fun _ => ApiResp.unauthorized)).2 = 1) :=
  ⟨(C9_verify_login (fun _ => ApiResp.ok none)).1 rfl,
    (C9_verify_login (fun _ => ApiResp.unauthorized)).2 rfl⟩

/-! ## Claim C1 -/

/-- C1 counterexample: a paginated server returning exactly `page_size = 2`
items on page 1 and one item on page 2.  The claim would require
`get_posts` to return the three items of pages 1 and 2; the code issues a
single request (with no `page` parameter) and returns only page 1. -/
theorem C1_pagination_cex :
    (exPages 1).length = 2 ∧ (exPages 2).length < 2
    ∧ (get_posts (pagedServer exPages) [] 2).1 ≠ [10, 20, 30] := by decide

/-- C1 (amended): `get_posts` issues exactly one request, carrying the tags
and the limit and no page parameter, and returns exactly the server's
first page; in particular no request for any further page is ever
issued, and when page 1 already holds fewer than `page_size` items (the
`k = 1` case of the claim) the result is that single page. -/
theorem C1_single_page (pages : Nat → List Nat) (tags : List Char) (limit : Nat) :
    (get_posts (pagedServer pages) tags limit).1 = pages 1
    ∧ (get_posts (pagedServer pages) tags limit).2 = [⟨tags, limit, none⟩] := by
  constructor <;> rfl

/-- C1 witness: the single-page behaviour on the concrete paginated
server. -/
theorem C1_single_page_witness :
    (get_posts (pagedServer exPages) [] 2).1 = exPages 1
    ∧ (get_posts (pagedServer exPages) [] 2).2 = [⟨[], 2, none⟩] :=
  C1_single_page exPages [] 2

/-! ## Claim C2 -/

/-- C2 counterexample: a server that ignores the `limit` parameter and
returns two posts when asked for at most one; `get_posts` passes them
through without truncation, so its result exceeds the cap. -/
theorem C2_cap_cex :
    ¬ ((get_posts (fun _ => ApiResp.ok (some [1, 2])) [] 1).1.length ≤ 1) := by decide

/-- C2 (amended): `get_posts tags N` returns at most `N` items provided the
server honours the `limit` parameter of the request the client issues,
i.e. answers a 200 whose `posts` field holds at most `N` items; the client
itself performs no truncation. -/
theorem C2_cap (server : ApiRequest → ApiResp) (tags : List Char) (limit : Nat)
    (hserver : ∀ b, server ⟨tags, limit, none⟩ = .ok b → (b.getD []).length ≤ limit) :
    (get_posts server tags limit).1.length ≤ limit := by
  unfold get_posts
  cases hs : server ⟨tags, limit, none⟩ with
  | ok b =>
    simp only [hs, make_request, retry_count, make_request_go]
    exact hserver b hs
  | unauthorized => simp [hs, make_request, retry_count, make_request_go]
  | otherStatus => simp [hs, make_request, retry_count, make_request_go]
  | connError => simp [hs, make_request, retry_count, make_request_go]

/-- C2 witness: a server returning a single post for a cap of 1. -/
theorem C2_cap_witness :
    (get_posts (fun _ => ApiResp.ok (some [5])) [] 1).1.length ≤ 1 :=
  C2_cap (fun _ => ApiResp.ok (some [5])) [] 1
    (fun b hb => by
      cases hb
      decide)

/-! ## Claim C7 -/

/-- C7: when the sanitized final path already exists, `download_file`
reports success, issues no request, and returns the filesystem
unchanged. -/
theorem C7_skip (server : Nat → DLResp) (dir : List Char) (f : DownloadFile) (fs : FS)
    (h : (fs (final_path dir f)).isSome = true) :
    download_file server dir f fs = (true, fs, []) := by
  unfold download_file
  rw [if_pos h]

/-- C7 witness: a filesystem already holding `exF`'s final file; even an
always-failing transport is never consulted. -/
theorem C7_skip_witness :
    (exFS7 (final_path ['d'] exF)).isSome = true
    ∧ download_file (fun _ => DLResp.connError) ['d'] exF exFS7 = (true, exFS7, []) :=
  ⟨by decide, C7_skip _ _ _ _ (by decide)⟩

/-! ## Claim C3 -/

/-- C3: resuming from a partial file of size `P` that is a prefix of the
remote content, against a server that answers the ranged request with 206
and the remaining bytes, `download_file` returns true, the final path holds
exactly the remote content, and the one request issued carried a `Range`
header starting at offset `P`. -/
theorem C3_resume (server : Nat → DLResp) (dir : List Char) (f : DownloadFile) (fs : FS)
    (remote t : List Nat) (chunks : List (List Nat))
    (hfinal : fs (final_path dir f) = none)
    (htemp : fs (temp_path dir f) = some t)
    (hpre : t = remote.take t.length)
    (hpos : 0 < t.length)
    (_hlt : t.length < remote.length)
    (hserver : server 0 = .resp 206 chunks false)
    (hchunks : chunks.flatten = remote.drop t.length) :
    (download_file server dir f fs).1 = true
    ∧ (download_file server dir f fs).2.1 (final_path dir f) = some remote
    ∧ (download_file server dir f fs).2.2 = [⟨f.url, some t.length, t.length⟩] := by
  have hremote : t ++ chunks.flatten = remote := by
    rw [hchunks]
    conv_rhs => rw [← List.take_append_drop t.length remote]
    rw [← hpre]
  unfold download_file
  simp only [hfinal, htemp, Option.isSome_none, Bool.false_eq_true, if_false]
  rw [show retry_count = 2 + 1 from rfl]
  unfold download_go
  simp only [hserver]
  rw [if_pos (show 206 = 200 ∨ True ∧ True from Or.inr ⟨trivial, trivial⟩)]
  rw [if_neg (show ¬(false = true) from by simp)]
  refine ⟨rfl, ?_, ?_⟩
  · simp [FS.set, htemp, hremote]
  · simp [htemp, hpos]

/-- C3 witness: partial file `[1]`, remote `[1, 2, 3]`, the server streams
the remaining `[2, 3]` with a 206. -/
theorem C3_resume_witness :
    (download_file exServer3 ['d'] exF exFS3).1 = true
    ∧ (download_file exServer3 ['d'] exF exFS3).2.1 (final_path ['d'] exF) = some [1, 2, 3]
    ∧ (download_file exServer3 ['d'] exF exFS3).2.2 = [⟨['u'], some 1, 1⟩] := by
  have h := C3_resume exServer3 ['d'] exF exFS3 [1, 2, 3] [1] [[2, 3]]
    (by decide) (by decide) (by decide) (by decide) (by decide) (by decide) (by decide)
  exact ⟨h.1, h.2.1, h.2.2⟩

/-! ## Claim C5 -/

/-- Every request issued by the retry loop carries the `Range` header
computed from the offset fixed before the loop started. -/
theorem download_go_range_const (server : Nat → DLResp) (url finalP tempP : List Char)
    (resume : Bool) (dsize : Nat) :
    ∀ (fuel i : Nat) (fs : FS) (log : List DLReq),
      (∀ r ∈ log, r.range = if resume ∧ 0 < dsize then some dsize else none) →
      ∀ r ∈ (download_go server url finalP tempP resume dsize i fuel fs log).2.2,
        r.range = if resume ∧ 0 < dsize then some dsize else none := by
  intro fuel
  induction fuel with
  | zero => intro i fs log hlog r hr; exact hlog r hr
  | succ fuel ih =>
    intro i fs log hlog r hr
    have hlog2 : ∀ fs2 : FS,
        ∀ r2 ∈ log ++ [(⟨url, if resume ∧ 0 < dsize then some dsize else none,
            ((fs2 tempP).getD []).length⟩ : DLReq)],
          r2.range = if resume ∧ 0 < dsize then some dsize else none := by
      intro fs2 r2 hr2
      rcases List.mem_append.mp hr2 with h | h
      · exact hlog r2 h
      · rw [List.mem_singleton.mp h]
    unfold download_go at hr
    cases hs : server i with
    | connError =>
      simp only [hs] at hr
      exact ih (i + 1) fs _ (hlog2 fs) r hr
    | resp st chunks intr =>
      simp only [hs] at hr
      by_cases hok : st = 200 ∨ (resume = true ∧ st = 206)
      · rw [if_pos hok] at hr
        by_cases hint : intr = true
        · rw [if_pos hint] at hr
          exact ih (i + 1) _ _ (hlog2 fs) r hr
        · rw [if_neg hint] at hr
          exact hlog2 fs r hr
      · rw [if_neg hok] at hr
        exact ih (i + 1) fs _ (hlog2 fs) r hr

/-- A retry loop whose every attempt hits a transport error returns
false. -/
theorem download_go_all_connError (server : Nat → DLResp) (url finalP tempP : List Char)
    (resume : Bool) (dsize : Nat) (hserver : ∀ i, server i = .connError) :
    ∀ (fuel i : Nat) (fs : FS) (log : List DLReq),
      (download_go server url finalP tempP resume dsize i fuel fs log).1 = false := by
  intro fuel
  induction fuel with
  | zero => intro i fs log; rfl
  | succ fuel ih =>
    intro i fs log
    unfold download_go
    rw [hserver i]
    exact ih (i + 1) fs _

/-- C5 counterexample: with a partial file of 1 byte, the first attempt
streams one more byte and dies; the retry then carries `Range` offset 1
although the temporary file's size at that attempt is 2 — the offset is not
re-checked. -/
theorem C5_recheck_cex :
    ¬ (∀ r ∈ (download_file exServer5 ['d'] exF exFS5).2.2,
        r.range = if 0 < r.tempSize then some r.tempSize else none) := by decide

/-- C5 (amended): the resume offset is computed once from the temporary
file's size before the first attempt, and every request of the call (first
attempt and all retries) carries that same offset; and when the final file
is absent and every attempt fails with a transport error, `download_file`
returns false instead of raising. -/
theorem C5_offset_fixed (server : Nat → DLResp) (dir : List Char) (f : DownloadFile) (fs : FS) :
    (∀ r ∈ (download_file server dir f fs).2.2,
        r.range = match fs (temp_path dir f) with
          | some c => if 0 < c.length then some c.length else none
          | none => none)
    ∧ ((fs (final_path dir f)).isSome = false → (∀ i, server i = .connError) →
        (download_file server dir f fs).1 = false) := by
  constructor
  · unfold download_file
    by_cases hf : (fs (final_path dir f)).isSome = true
    · rw [if_pos hf]
      intro r hr
      simp at hr
    · rw [if_neg hf]
      cases ht : fs (temp_path dir f) with
      | some c =>
        intro r hr
        have h := download_go_range_const server f.url _ _ true c.length retry_count 0 fs []
          (by simp) r hr
        simpa using h
      | none =>
        intro r hr
        have h := download_go_range_const server f.url _ _ false 0 retry_count 0 fs []
          (by simp) r hr
        simpa using h
  · intro hf hconn
    unfold download_file
    rw [if_neg (by simp [hf])]
    cases ht : fs (temp_path dir f) with
    | some c => exact download_go_all_connError server f.url _ _ true c.length hconn retry_count 0 fs []
    | none => exact download_go_all_connError server f.url _ _ false 0 hconn retry_count 0 fs []

/-- C5 witness: an always-erroring transport with no pre-existing files
makes `download_file` return false, and (vacuously checkable here on the
issued requests) every request carried the initially computed offset. -/
theorem C5_offset_fixed_witness :
    ((fun _ => (none : Option (List Nat))) (final_path ['d'] exF)).isSome = false
    ∧ (download_file (fun _ => DLResp.connError) ['d'] exF (fun _ => none)).1 = false :=
  ⟨rfl, (C5_offset_fixed (fun _ => DLResp.connError) ['d'] exF (fun _ => none)).2
    rfl (fun _ => rfl)⟩

end E6
